import Mathlib

/-!
Verification development for the lambda hot-reload build orchestrator.

The JavaScript sources are embedded shallowly:
- the staleness resolver (`BuildManager._isArtifactStale`,
  `_getLatestSourceModTime`, `_getArtifactModTime`) over an explicit
  file-tree datatype in which a directory read may raise;
- the incremental selection (`_functionNeedsRebuild`,
  `_determineFunctionsToRebuild`, the entry filter of `buildFunctions`);
- the bounded-parallel build scheduler (`buildFunctions` /
  `_buildFunction`) as a state machine driven by an explicit completion
  schedule;
- the debouncing change aggregator (`FileWatcher._handleFileChanges`,
  `_flushPendingChanges`) as a timed event semantics;
- the restart supervisor (`FileWatcher._attemptRestart` and the
  `nodemonStart` listener);
- the configuration store (`ConfigurationManager.updateConfig`,
  `loadConfig`, `validateConfig`) over a small JSON value type.

External collaborators (the build-method dispatch processes, nodemon,
`path.normalize`, the JSON/YAML parsers) are taken as parameters, exactly
at the boundary where the code invokes them.  Wall-clock fields of a build
result (startTime, endTime, duration) are environment supplied and are
omitted from the embedded record.
-/

namespace HotReload

/-! ## File trees for the staleness resolver

A directory entry as seen by `fs.readdirSync(dir, { withFileTypes: true })`.
`dir name false entries` models a directory whose `readdirSync` raises a
file-system error (the stored entries are unreachable); `dir name true
entries` reads successfully.  File modification times (`stats.mtime`) are
naturals. -/

inductive FsTree where
  | file (name : String) (mtime : Nat)
  | dir (name : String) (readable : Bool) (entries : List FsTree)

/-- Directory names skipped by the source scan in
`_getLatestSourceModTime`: `['node_modules', '.git', '.aws-sam', 'dist',
'build']`. -/
def skipDirs : List String := ["node_modules", ".git", ".aws-sam", "dist", "build"]

mutual
/-- One entry of a successfully read directory, as processed by the loop
body of `scanDirectory` inside `_getLatestSourceModTime`: a file
contributes its mtime; a non-skipped directory is scanned recursively,
where a failing `readdirSync` is caught and contributes nothing (the
`catch` only logs a debug message). -/
def scanEntry : FsTree → Nat
  | FsTree.file _ m => m
  | FsTree.dir name readable entries =>
      if name ∈ skipDirs then 0
      else if readable then scanEntries entries else 0

/-- Maximum over the entries of a directory (the running
`latestModTime = Math.max(latestModTime, ...)` of `scanDirectory`). -/
def scanEntries : List FsTree → Nat
  | [] => 0
  | e :: es => Nat.max (scanEntry e) (scanEntries es)
end

/-- Embeds `BuildManager._getLatestSourceModTime(sourceDir)`: scan the
source root recursively; a `readdirSync` error anywhere (including at the
root, e.g. `sourceDir` missing or being a plain file) is swallowed by the
internal `catch`, so the affected directory contributes modification time
0. -/
def getLatestSourceModTime : FsTree → Nat
  | FsTree.file _ _ => 0
  | FsTree.dir _ readable entries => if readable then scanEntries entries else 0

/-- Embeds `BuildManager._getArtifactModTime(outputDir)`: read the output
directory (non-recursively); on a read error return `none` (`null`);
otherwise the maximum mtime over plain files, or `none` when the directory
holds no files. -/
def getArtifactModTime : FsTree → Option Nat
  | FsTree.file _ _ => none
  | FsTree.dir _ false _ => none
  | FsTree.dir _ true entries =>
      let files := entries.filterMap fun e =>
        match e with
        | FsTree.file _ m => some m
        | FsTree.dir _ _ _ => none
      match files with
      | [] => none
      | _ => some (files.foldl Nat.max 0)

/-- Embeds `BuildManager._isArtifactStale`.  `output = none` models
`fs.existsSync(outputDir) = false`.  The outer `try/catch` of the JS
method (returning `true`) is unreachable here because both scan helpers
already catch their own file-system errors, exactly as in the source. -/
def isArtifactStale (source : FsTree) (output : Option FsTree) : Bool :=
  match output with
  | none => true
  | some out =>
      let sourceModTime := getLatestSourceModTime source
      match getArtifactModTime out with
      | none => true
      | some artifactModTime => decide (sourceModTime > artifactModTime)

mutual
/-- Whether the recursive source scan of `_getLatestSourceModTime` hits a
file-system error on this entry (a non-skipped directory whose
`readdirSync` raises, at any depth). -/
def entryScanErrors : FsTree → Bool
  | FsTree.file _ _ => false
  | FsTree.dir name readable entries =>
      if name ∈ skipDirs then false
      else if readable then entriesScanError entries else true

/-- Whether any entry of a directory leads to a scan error. -/
def entriesScanError : List FsTree → Bool
  | [] => false
  | e :: es => entryScanErrors e || entriesScanError es
end

/-- Whether scanning the source tree root (as `_getLatestSourceModTime`
does) raises a file-system error somewhere: the root itself is unreadable
(or is a plain file), or some reachable subdirectory is. -/
def sourceScanErrors : FsTree → Bool
  | FsTree.file _ _ => true
  | FsTree.dir _ readable entries =>
      if readable then entriesScanError entries else true

/-- Whether reading the build-output directory in `_getArtifactModTime`
raises a file-system error (its `readdirSync` throws). -/
def outputScanErrors : FsTree → Bool
  | FsTree.file _ _ => true
  | FsTree.dir _ readable _ => !readable

/-- Failing input for the fail-open claim: a source root whose directory
read raises a file-system error. -/
def srcErr : FsTree := FsTree.dir "src" false []

/-- Build-output directory holding one artifact with mtime 5. -/
def outOk : FsTree := FsTree.dir "FuncA" true [FsTree.file "app.js" 5]

/-! ## Incremental target selection

`_functionNeedsRebuild` receives the list of changed paths and the
function's `codeUri`; `path.normalize` is an external transform and is a
parameter `norm`.  The file system backing the staleness check is an
environment: `fsSource` maps a `codeUri` to its source tree, `fsOutput`
maps a function name to its `.aws-sam/build/<name>` directory (`none`
when `fs.existsSync` is false). -/

/-- Embeds the target descriptor fields the build manager reads:
`functionConfig.Name`, `functionConfig.Properties.CodeUri` (`none` models
an absent `CodeUri`, defaulted to `'.'` by `CodeUri || '.'`), and
`functionConfig.Metadata.BuildMethod`. -/
structure FunctionConfig where
  Name : String
  CodeUri : Option String
  BuildMethod : String
deriving DecidableEq, Repr

/-- The `codeUri` the build manager computes: `func.Properties.CodeUri || '.'`. -/
def codeUriOf (f : FunctionConfig) : String := f.CodeUri.getD "."

/-- JavaScript `s.startsWith(p)`: `p` is a leading substring of `s`. -/
def strStartsWith (s p : String) : Bool := p.data.isPrefixOf s.data

/-- Node's `path.join(s, '/')` for an already-normalized `s`: append a
trailing separator unless one is present. -/
def joinSlash (s : String) : String :=
  if s = "" then "/" else if s.data.getLastD ' ' = '/' then s else s ++ "/"

/-- The affectedness test inside `_functionNeedsRebuild`:
`changedFiles.some(filePath => normalized.startsWith(normalizedCodeUri) ||
normalized.startsWith(path.join(normalizedCodeUri, '/')))`. -/
def functionAffected (norm : String → String) (changedFiles : List String)
    (codeUri : String) : Bool :=
  changedFiles.any fun filePath =>
    strStartsWith (norm filePath) (norm codeUri) ||
    strStartsWith (norm filePath) (joinSlash (norm codeUri))

/-- Embeds `_functionNeedsRebuild`: not affected → `false`; otherwise the
staleness check decides. -/
def functionNeedsRebuild (norm : String → String) (fsSource : String → FsTree)
    (fsOutput : String → Option FsTree) (f : FunctionConfig)
    (changedFiles : List String) (codeUri : String) : Bool :=
  functionAffected norm changedFiles codeUri &&
    isArtifactStale (fsSource codeUri) (fsOutput f.Name)

/-- Embeds `_determineFunctionsToRebuild`: keep the functions whose
`_functionNeedsRebuild` is true, in order. -/
def determineFunctionsToRebuild (norm : String → String)
    (fsSource : String → FsTree) (fsOutput : String → Option FsTree)
    (functions : List FunctionConfig) (changedFiles : List String) :
    List FunctionConfig :=
  functions.filter fun func =>
    functionNeedsRebuild norm fsSource fsOutput func changedFiles (codeUriOf func)

/-- The selection step at the top of `buildFunctions`:
`changedFiles.length > 0 ? _determineFunctionsToRebuild(...) : functions`. -/
def selectFunctions (norm : String → String) (fsSource : String → FsTree)
    (fsOutput : String → Option FsTree) (functions : List FunctionConfig)
    (changedFiles : List String) : List FunctionConfig :=
  if changedFiles.length > 0 then
    determineFunctionsToRebuild norm fsSource fsOutput functions changedFiles
  else functions

/-- Source environment for witnesses: an empty readable source root. -/
def fsSourceEmpty : String → FsTree := fun _ => FsTree.dir "." true []

/-- Output environment for witnesses: no build output exists yet. -/
def fsOutputMissing : String → Option FsTree := fun _ => none

/-- Concrete target rooted at `a` with the esbuild build method. -/
def funcA : FunctionConfig :=
  { Name := "FuncA", CodeUri := some "a", BuildMethod := "esbuild" }

/-! ## Bounded-parallel build scheduler

`buildFunctions` seeds up to `maxParallelBuilds` builds; each completing
build records its result, admits the next queued target, and — when the
completed count reaches the total — emits the batch summary.  Builds
finish asynchronously in an order the scheduler does not control, so a
run is driven by an explicit completion schedule: at each step an index
into the `active` list names the build whose external process finishes
next.  An admitted target is counted in `active` from admission (the code
increments `activeBuildCount` when the admitted `_buildFunction` call
starts, never earlier), so the model's `active` length bounds the code's
`activeBuildCount` at every instant.  The external build dispatch
(`_executeEsbuild` / `_executeMakefile` resolving or rejecting with a
message) is a parameter. -/

/-- Embeds the result record built by `_buildFunction` (wall-clock fields
omitted, see the header note). -/
structure BuildResult where
  functionName : String
  success : Bool
  errors : List String
  warnings : List String
deriving DecidableEq, Repr

/-- The build-method branch of `_buildFunction`: `esbuild` and `makefile`
delegate to the external dispatch; any other method throws
`Unsupported build method: <method>`. -/
def executeBuildMethod (dispatch : FunctionConfig → Except String Unit)
    (f : FunctionConfig) : Except String Unit :=
  if f.BuildMethod = "esbuild" then dispatch f
  else if f.BuildMethod = "makefile" then dispatch f
  else Except.error ("Unsupported build method: " ++ f.BuildMethod)

/-- The terminal `BuildResult` of `_buildFunction` for one target: success
on clean completion, otherwise `success = false` with the thrown message
pushed onto `errors`. -/
def mkBuildResult (dispatch : FunctionConfig → Except String Unit)
    (f : FunctionConfig) : BuildResult :=
  match executeBuildMethod dispatch f with
  | Except.ok _ =>
      { functionName := f.Name, success := true, errors := [], warnings := [] }
  | Except.error msg =>
      { functionName := f.Name, success := false, errors := [msg], warnings := [] }

/-- Scheduler state: `buildQueue`, the admitted builds (`active`, whose
length is `activeBuildCount`), the `buildResults` map in insertion order
(a JS `Map`), `completedFunctions`, `totalFunctions`, and the number of
`allBuildsComplete` emissions so far. -/
structure SchedState where
  buildQueue : List FunctionConfig
  active : List FunctionConfig
  buildResults : List (String × BuildResult)
  completedFunctions : Nat
  totalFunctions : Nat
  summaryEvents : Nat
deriving DecidableEq, Repr

/-- JS `Map.prototype.set`: replace in place when the key exists
(keeping its position), otherwise append. -/
def mapSet (m : List (String × BuildResult)) (k : String) (v : BuildResult) :
    List (String × BuildResult) :=
  if m.any fun p => p.1 == k then
    m.map fun p => if p.1 == k then (k, v) else p
  else m ++ [(k, v)]

/-- JS `Map.prototype.get` (also `getFunctionBuildStatus`). -/
def mapGet (m : List (String × BuildResult)) (k : String) : Option BuildResult :=
  (m.find? fun p => p.1 == k).map fun p => p.2

/-- The state after the admission loop of `buildFunctions`: the first
`min(maxParallelBuilds, n)` targets are admitted, the rest remain
queued. -/
def initState (maxParallel : Nat) (fns : List FunctionConfig) : SchedState :=
  let initialBuilds := Nat.min maxParallel fns.length
  { buildQueue := fns.drop initialBuilds
  , active := fns.take initialBuilds
  , buildResults := []
  , completedFunctions := 0
  , totalFunctions := fns.length
  , summaryEvents := 0 }

/-- The admission step in the `finally` block: `if (this.buildQueue.length
> 0) { const nextFunction = this.buildQueue.shift();
setImmediate(() => this._buildFunction(nextFunction)); }`. -/
def admitNext (s : SchedState) : SchedState :=
  match s.buildQueue with
  | [] => s
  | g :: rest => { s with buildQueue := rest, active := s.active ++ [g] }

/-- The summary check in the `finally` block: `if (this.completedFunctions
=== this.totalFunctions) { ... this.emit('allBuildsComplete', ...) }`. -/
def finishSummary (s : SchedState) : SchedState :=
  if s.completedFunctions = s.totalFunctions then
    { s with summaryEvents := s.summaryEvents + 1 }
  else s

/-- One build completion: the `finally` block of `_buildFunction` for
`active[i]` — record the result, decrement the active count, increment
the completed count, then admit the next queued target if any, then emit
`allBuildsComplete` when the completed count reaches the total.  An
out-of-range index is a stutter step. -/
def completeStep (dispatch : FunctionConfig → Except String Unit)
    (s : SchedState) (i : Nat) : SchedState :=
  match s.active[i]? with
  | none => s
  | some f =>
      finishSummary (admitNext
        { s with active := s.active.eraseIdx i
               , buildResults := mapSet s.buildResults f.Name (mkBuildResult dispatch f)
               , completedFunctions := s.completedFunctions + 1 })

/-- Run the scheduler under a completion schedule. -/
def runSched (dispatch : FunctionConfig → Except String Unit) :
    SchedState → List Nat → SchedState
  | s, [] => s
  | s, i :: rest => runSched dispatch (completeStep dispatch s i) rest

/-- A schedule is valid when every step names an admitted build. -/
def validRunB (dispatch : FunctionConfig → Except String Unit) :
    SchedState → List Nat → Bool
  | _, [] => true
  | s, i :: rest =>
      decide (i < s.active.length) && validRunB dispatch (completeStep dispatch s i) rest

/-- The concurrency cap computed in the `BuildManager` constructor:
`parallelBuilds ? Math.max(1, Math.floor(os.cpus().length / 2)) : 1`. -/
def maxParallelBuilds (parallelBuilds : Bool) (cpuCount : Nat) : Nat :=
  if parallelBuilds then Nat.max 1 (cpuCount / 2) else 1

/-- Entry of `buildFunctions(functions, changedFiles)`: reject a null or
empty target list, select the targets to rebuild, return an empty map
when nothing is selected, otherwise run the scheduler.  `none` models a
null / non-array argument. -/
def buildFunctions (norm : String → String) (fsSource : String → FsTree)
    (fsOutput : String → Option FsTree)
    (dispatch : FunctionConfig → Except String Unit) (maxParallel : Nat)
    (functions : Option (List FunctionConfig)) (changedFiles : List String)
    (sched : List Nat) : Except String (List (String × BuildResult)) :=
  match functions with
  | none => Except.error "No functions provided for building"
  | some fns =>
      if fns.length = 0 then Except.error "No functions provided for building"
      else
        let functionsToRebuild := selectFunctions norm fsSource fsOutput fns changedFiles
        if functionsToRebuild.length = 0 then Except.ok []
        else
          Except.ok
            (runSched dispatch (initState maxParallel functionsToRebuild) sched).buildResults

/-- Aggregate produced by `_displayBuildSummary` (and the
`allBuildsComplete` payload's `successCount`): counts over
`Array.from(buildResults.values())`, plus the per-target list in the
order that array yields. -/
structure BuildSummary where
  totalFunctions : Nat
  successCount : Nat
  failureCount : Nat
  perFunction : List BuildResult
deriving DecidableEq, Repr

/-- Embeds `_displayBuildSummary` as the pure aggregate it reports. -/
def displayBuildSummary (s : SchedState) : BuildSummary :=
  let results := s.buildResults.map fun p => p.2
  { totalFunctions := results.length
  , successCount := (results.filter fun r => r.success).length
  , failureCount := (results.filter fun r => !r.success).length
  , perFunction := results }

/-- The counting invariant of `RunState`: pending + admitted + completed
add up to the batch total, and the summary event has fired exactly when
the completed count reached the total. -/
def SchedCounts (s : SchedState) : Prop :=
  s.completedFunctions + s.active.length + s.buildQueue.length = s.totalFunctions ∧
  s.summaryEvents = (if s.completedFunctions = s.totalFunctions then 1 else 0)

/-- Coverage: every batch member is recorded, admitted, or queued. -/
def Covers (fns : List FunctionConfig) (s : SchedState) : Prop :=
  ∀ f, f ∈ fns →
    (∃ r, (f.Name, r) ∈ s.buildResults) ∨ f ∈ s.active ∨ f ∈ s.buildQueue

/-- Provenance: every recorded result is the deterministic result of its
own target's dispatch, and every admitted or queued target belongs to the
batch. -/
def ResultsFrom (dispatch : FunctionConfig → Except String Unit)
    (fns : List FunctionConfig) (s : SchedState) : Prop :=
  (∀ k r, (k, r) ∈ s.buildResults →
    ∃ f, f ∈ fns ∧ f.Name = k ∧ r = mkBuildResult dispatch f) ∧
  (∀ f, f ∈ s.active → f ∈ fns) ∧ (∀ f, f ∈ s.buildQueue → f ∈ fns)

/-- Concrete target whose build method is not recognized by the
dispatcher branch of `_buildFunction`. -/
def funcB : FunctionConfig :=
  { Name := "FuncB", CodeUri := some "b", BuildMethod := "custom-build" }

/-- Concrete target using the makefile build method. -/
def funcC : FunctionConfig :=
  { Name := "FuncC", CodeUri := some "c", BuildMethod := "makefile" }

/-- External dispatch that always succeeds. -/
def dispatchOk : FunctionConfig → Except String Unit := fun _ => Except.ok ()

/-- Three-target batch where exactly `funcB`'s dispatch fails (unsupported
build method). -/
def scenarioFns : List FunctionConfig := [funcA, funcB, funcC]

/-- Final state of the three-target batch under cap 2 with in-order
completions. -/
def scenarioFinal : SchedState :=
  runSched dispatchOk (initState 2 scenarioFns) [0, 0, 0]

/-! ## Restart supervisor

`FileWatcher._attemptRestart` and the `nodemonStart` listener, over the
restart-relevant fields of the watcher. -/

/-- The restart-relevant fields of `FileWatcher`. -/
structure WatcherRestartState where
  restartAttempts : Nat
  maxRestartAttempts : Nat
  restartBackoffDelay : Nat
  isWatching : Bool
deriving DecidableEq, Repr

/-- What `_attemptRestart` does besides mutating state: either schedule a
restart via `setTimeout(..., delay)` (after emitting `watcherRestarting`
with the attempt number and delay), or emit the non-recoverable
`Maximum restart attempts (...) exceeded` error and return without
scheduling anything. -/
inductive RestartAction where
  | scheduled (attempt : Nat) (delay : Nat)
  | failedPermanently (msg : String)
deriving DecidableEq, Repr

/-- Embeds `FileWatcher._attemptRestart`: at the attempt ceiling, emit the
terminal error and change nothing; otherwise increment `restartAttempts`
and schedule a restart after
`restartBackoffDelay * Math.pow(2, restartAttempts - 1)`. -/
def attemptRestart (w : WatcherRestartState) : WatcherRestartState × RestartAction :=
  if w.restartAttempts ≥ w.maxRestartAttempts then
    (w, RestartAction.failedPermanently
      ("Maximum restart attempts (" ++ toString w.maxRestartAttempts ++ ") exceeded"))
  else
    let attempts := w.restartAttempts + 1
    let delay := w.restartBackoffDelay * 2 ^ (attempts - 1)
    ({ w with restartAttempts := attempts }, RestartAction.scheduled attempts delay)

/-- Embeds the `nodemonStart` listener in `_setupEventListeners`: a
successful watch start sets `isWatching` and resets `restartAttempts` to
0. -/
def onNodemonStart (w : WatcherRestartState) : WatcherRestartState :=
  { w with isWatching := true, restartAttempts := 0 }

/-- State after `n` consecutive crashes, each handled by
`_attemptRestart`. -/
def iterateCrashes (w : WatcherRestartState) : Nat → WatcherRestartState
  | 0 => w
  | n + 1 => (attemptRestart (iterateCrashes w n)).1

/-- A supervisor at the start of a failure streak with ceiling
`maxAttempts` and base delay `baseDelay` (the constructor sets
`restartAttempts = 0`, `maxRestartAttempts = 3`,
`restartBackoffDelay = 1000`; the ceiling and base are parameters
here). -/
def freshWatcher (maxAttempts baseDelay : Nat) : WatcherRestartState :=
  { restartAttempts := 0, maxRestartAttempts := maxAttempts
  , restartBackoffDelay := baseDelay, isWatching := false }

/-! ## Change aggregator

`FileWatcher._handleFileChanges` / `_flushPendingChanges` under an
explicit timeline: a notification at absolute time `t` adds its paths to
the pending set and (re)arms the debounce timer to fire at
`t + debounceDelay`; the timer, when it reaches its deadline without being
cancelled, flushes the pending set as one `filesChanged` emission. -/

/-- The debounce-relevant fields of `FileWatcher`: `pendingChanges` (a JS
`Set`, kept as a duplicate-free list in insertion order) and the pending
timer's absolute deadline (`none` when no timer is armed). -/
structure WatcherState where
  pendingChanges : List String
  deadline : Option Nat
deriving DecidableEq, Repr

/-- `Set.prototype.add`: append unless already present. -/
def setInsert (s : List String) (x : String) : List String :=
  if x ∈ s then s else s ++ [x]

/-- Embeds `_handleFileChanges(files)` at time `now`: insert every path
into the pending set, clear any existing timer, and arm the timer for
`now + debounceDelay`. -/
def handleFileChanges (debounceDelay now : Nat) (files : List String)
    (w : WatcherState) : WatcherState :=
  { pendingChanges := files.foldl setInsert w.pendingChanges
  , deadline := some (now + debounceDelay) }

/-- The timer callback running `_flushPendingChanges`: a non-empty
pending set is swapped out and emitted as one batch; an empty one emits
nothing.  Either way the fired timer is gone. -/
def fireTimer (w : WatcherState) : WatcherState × List (List String) :=
  if w.pendingChanges.length > 0 then
    ({ pendingChanges := [], deadline := none }, [w.pendingChanges])
  else ({ w with deadline := none }, [])

/-- Timed semantics: process time-ordered notifications, letting the
armed timer fire first whenever its deadline precedes the next
notification, and letting any armed timer fire after the last
notification.  Returns the final state and the list of emitted batches. -/
def runWatcher (debounceDelay : Nat) :
    WatcherState → List (Nat × List String) → WatcherState × List (List String)
  | ⟨pending, none⟩, [] => (⟨pending, none⟩, [])
  | ⟨pending, some d⟩, [] => fireTimer ⟨pending, some d⟩
  | ⟨pending, none⟩, (t, files) :: rest =>
      runWatcher debounceDelay
        (handleFileChanges debounceDelay t files ⟨pending, none⟩) rest
  | ⟨pending, some d⟩, (t, files) :: rest =>
      if d ≤ t then
        let fired := fireTimer ⟨pending, some d⟩
        let done := runWatcher debounceDelay
          (handleFileChanges debounceDelay t files fired.1) rest
        (done.1, fired.2 ++ done.2)
      else
        runWatcher debounceDelay
          (handleFileChanges debounceDelay t files ⟨pending, some d⟩) rest

/-- Each notification follows the previous one by less than the debounce
delay (and not before it). -/
def tightFrom (debounceDelay : Nat) : Nat → List (Nat × List String) → Bool
  | _, [] => true
  | prev, (t, _) :: rest =>
      decide (prev ≤ t) && decide (t < prev + debounceDelay) &&
        tightFrom debounceDelay t rest

/-- The deduplicated union of all paths of a notification sequence, in
first-seen order — exactly the contents the pending `Set` accumulates. -/
def dedupUnion (notifications : List (Nat × List String)) : List String :=
  ((notifications.map fun n => n.2).flatten).foldl setInsert []

/-! ## Configuration store

`ConfigurationManager` over a small JSON-like value type.  The external
collaborators (`fs`, `JSON.parse`, `YAML.parse`) enter as parameters;
validation error messages are abbreviated to their identifying first
words. -/

/-- A JSON/YAML value as the configuration store sees it. -/
inductive JsValue where
  | str (s : String)
  | num (n : Int)
  | bool (b : Bool)
  | arr (xs : List JsValue)
  | obj (fields : List (String × JsValue))
  | null

/-- A configuration object: ordered key/value fields (JS object). -/
abbrev Obj := List (String × JsValue)

/-- Property read `config[key]` (`none` models `undefined`). -/
def objGet : Obj → String → Option JsValue
  | [], _ => none
  | p :: rest, k => if p.1 == k then some p.2 else objGet rest k

/-- The spread-with-override `{ ...o, [k]: v }`: an existing key keeps its
position with the new value, a new key is appended. -/
def objSet (o : Obj) (k : String) (v : JsValue) : Obj :=
  if o.any fun p => p.1 == k then
    o.map fun p => if p.1 == k then (k, v) else p
  else o ++ [(k, v)]

/-- Object spread `{ ...a, ...b }`. -/
def objMerge (a b : Obj) : Obj :=
  b.foldl (fun acc p => objSet acc p.1 p.2) a

/-- The log levels accepted by `validateConfig`. -/
def validLogLevels : List String := ["debug", "info", "warn", "error"]

/-- Embeds `ConfigurationManager.validateConfig`: `logLevel` must be one
of the valid levels, `parallelBuilds` a boolean, `debounceDelay` a
non-negative number, `ignorePatterns` and `defaultFunctions` arrays;
the first failing check throws. -/
def validateConfig (config : Obj) : Except String Unit :=
  if !(match objGet config "logLevel" with
       | some (JsValue.str s) => validLogLevels.contains s
       | _ => false) then
    Except.error "Invalid logLevel"
  else if !(match objGet config "parallelBuilds" with
       | some (JsValue.bool _) => true
       | _ => false) then
    Except.error "parallelBuilds must be a boolean value"
  else if !(match objGet config "debounceDelay" with
       | some (JsValue.num n) => decide (0 ≤ n)
       | _ => false) then
    Except.error "debounceDelay must be a non-negative number"
  else if !(match objGet config "ignorePatterns" with
       | some (JsValue.arr _) => true
       | _ => false) then
    Except.error "ignorePatterns must be an array"
  else if !(match objGet config "defaultFunctions" with
       | some (JsValue.arr _) => true
       | _ => false) then
    Except.error "defaultFunctions must be an array"
  else Except.ok ()

/-- Embeds `ConfigurationManager.updateConfig`: build the updated object,
validate it; on success store it (returning no error), on failure restore
the previous object and rethrow the validation error. -/
def updateConfig (config : Obj) (key : String) (value : JsValue) :
    Obj × Option String :=
  match validateConfig (objSet config key value) with
  | Except.ok _ => (objSet config key value, none)
  | Except.error e => (config, some e)

/-- What `fs.existsSync` + `fs.readFileSync` yield for the configuration
path: the file is missing, reading it throws, or it has contents. -/
inductive FileRead where
  | missing
  | readError (msg : String)
  | content (text : String)
deriving DecidableEq, Repr

/-- The observable outcome of `loadConfig`: `configLoaded`,
`configNotFound`, or `configError` — the method itself never throws. -/
inductive LoadOutcome where
  | loaded
  | notFound
  | failed (msg : String)
deriving DecidableEq, Repr

/-- Node's `path.extname`: the final-extension suffix of the basename,
empty for extensionless names and leading-dot files. -/
def extname (p : String) : String :=
  let base := (p.splitOn "/").getLastD ""
  let parts := base.splitOn "."
  match parts with
  | [] => ""
  | [_] => ""
  | "" :: [_] => ""
  | _ => "." ++ parts.getLastD ""

/-- The format dispatch of `loadConfig`: `.json` parses as JSON, `.yaml` /
`.yml` as YAML, anything else throws
`Unsupported configuration file format`. -/
def parseByExt (parseJSON parseYAML : String → Except String Obj)
    (configPath text : String) : Except String Obj :=
  let ext := (extname configPath).toLower
  if ext = ".json" then parseJSON text
  else if ext = ".yaml" ∨ ext = ".yml" then parseYAML text
  else Except.error ("Unsupported configuration file format: " ++ ext)

/-- Embeds `ConfigurationManager.loadConfig`: a missing file keeps the
stored configuration (`configNotFound`); otherwise the contents are
parsed by extension, merged over the previous configuration and
validated; any thrown error is caught, the previous configuration is
restored and `configError` is reported — the caller never sees an
exception. -/
def loadConfig (file : FileRead) (parseJSON parseYAML : String → Except String Obj)
    (configPath : String) (current : Obj) : Obj × LoadOutcome :=
  match file with
  | FileRead.missing => (current, LoadOutcome.notFound)
  | FileRead.readError msg => (current, LoadOutcome.failed msg)
  | FileRead.content text =>
      match parseByExt parseJSON parseYAML configPath text with
      | Except.error e => (current, LoadOutcome.failed e)
      | Except.ok loadedConfig =>
          match validateConfig (objMerge current loadedConfig) with
          | Except.ok _ => (objMerge current loadedConfig, LoadOutcome.loaded)
          | Except.error e => (current, LoadOutcome.failed e)

/-- The defaults installed by `_getDefaultConfig`. -/
def defaultConfig : Obj :=
  [("templatePath", JsValue.str "./template.yaml"),
   ("defaultFunctions", JsValue.arr []),
   ("ignorePatterns", JsValue.arr
     [JsValue.str "node_modules/**", JsValue.str ".git/**", JsValue.str ".aws-sam/**"]),
   ("buildSettings", JsValue.obj []),
   ("logLevel", JsValue.str "info"),
   ("parallelBuilds", JsValue.bool true),
   ("debounceDelay", JsValue.num 300)]

/-- An output-tree read error makes `_getArtifactModTime` return `null`. -/
theorem getArtifactModTime_eq_none_of_scanErrors (out : FsTree)
    (h : outputScanErrors out = true) : getArtifactModTime out = none := by
  cases out with
  | file _ _ => rfl
  | dir name readable entries =>
      cases readable with
      | false => rfl
      | true => simp [outputScanErrors] at h

/-- C1, counterexample: with a source root whose directory read raises a
file-system error and an existing build-output directory holding an
artifact, `_isArtifactStale` reports the target fresh (`false`), because
`_getLatestSourceModTime` swallows the error and yields modification time
0 — contradicting the claim that a scan error on either tree yields
stale. -/
theorem c1_source_scan_error_reported_fresh :
    sourceScanErrors srcErr = true ∧ isArtifactStale srcErr (some outOk) = false := by
  exact ⟨rfl, rfl⟩

/-- C1, amended: the staleness check fails open for the build-output tree
only: a missing output directory, an output directory whose read raises a
file-system error, or an output directory without artifact files each make
`_isArtifactStale` return `true`; a source-tree scan error, by contrast,
is swallowed per directory and does not force staleness (see the
counterexample). -/
theorem c1_fail_open_output_tree (source : FsTree) (output : Option FsTree) :
    (output = none → isArtifactStale source output = true) ∧
    (∀ out, output = some out → outputScanErrors out = true →
      isArtifactStale source output = true) ∧
    (∀ out, output = some out → getArtifactModTime out = none →
      isArtifactStale source output = true) := by
  refine ⟨?_, ?_, ?_⟩
  · intro h; subst h; rfl
  · intro out ho he; subst ho
    simp [isArtifactStale, getArtifactModTime_eq_none_of_scanErrors out he]
  · intro out ho hn; subst ho
    simp [isArtifactStale, hn]

/-- Witness for the amended C1 theorem at concrete inputs. -/
theorem c1_fail_open_output_tree_witness :
    isArtifactStale srcErr (some (FsTree.dir "FuncA" false [])) = true :=
  (c1_fail_open_output_tree srcErr (some (FsTree.dir "FuncA" false []))).2.1
    (FsTree.dir "FuncA" false []) rfl rfl

/-- Characterization of `List.isPrefixOf` as an explicit suffix. -/
theorem charPrefixOf_iff (a : List Char) :
    ∀ b : List Char, a.isPrefixOf b = true ↔ ∃ t, b = a ++ t := by
  induction a with
  | nil =>
      intro b
      simp [List.isPrefixOf]
  | cons x xs ih =>
      intro b
      cases b with
      | nil =>
          simp [List.isPrefixOf]
      | cons y ys =>
          simp only [List.isPrefixOf, Bool.and_eq_true, beq_iff_eq, ih ys]
          constructor
          · rintro ⟨rfl, t, rfl⟩
            exact ⟨t, rfl⟩
          · rintro ⟨t, ht⟩
            injection ht with h1 h2
            exact ⟨h1.symm, t, h2⟩

/-- `String.startsWith`-style test as an explicit suffix decomposition. -/
theorem strStartsWith_iff (s p : String) :
    strStartsWith s p = true ↔ ∃ t : String, s = p ++ t := by
  unfold strStartsWith
  rw [charPrefixOf_iff]
  constructor
  · rintro ⟨l, hl⟩
    refine ⟨String.mk l, ?_⟩
    apply String.ext
    simpa using hl
  · rintro ⟨t, rfl⟩
    exact ⟨t.data, by simp⟩

/-- A path starting with `path.join(s, '/')` also starts with `s`, so the
second disjunct of the affectedness test is absorbed by the first. -/
theorem strStartsWith_joinSlash {x s : String}
    (h : strStartsWith x (joinSlash s) = true) : strStartsWith x s = true := by
  unfold joinSlash at h
  by_cases h0 : s = ""
  · subst h0
    rw [strStartsWith_iff]
    exact ⟨x, rfl⟩
  · rw [if_neg h0] at h
    by_cases h1 : s.data.getLastD ' ' = '/'
    · rwa [if_pos h1] at h
    · rw [if_neg h1] at h
      rw [strStartsWith_iff] at h ⊢
      obtain ⟨t, rfl⟩ := h
      exact ⟨"/" ++ t, String.append_assoc s "/" t⟩

/-- C6: a target is affected iff some changed path's normalized form has
the target's normalized `codeUri` as a (string) prefix; with a non-empty
change batch the selection keeps exactly the targets that are both
affected and stale; with an empty change batch every target is selected
unconditionally. -/
theorem c6_affected_and_stale_selection (norm : String → String)
    (fsSource : String → FsTree) (fsOutput : String → Option FsTree)
    (functions : List FunctionConfig) (changedFiles : List String)
    (f : FunctionConfig) :
    (changedFiles = [] →
      selectFunctions norm fsSource fsOutput functions changedFiles = functions) ∧
    (functionAffected norm changedFiles (codeUriOf f) = true ↔
      ∃ p ∈ changedFiles, ∃ t, norm p = norm (codeUriOf f) ++ t) ∧
    (changedFiles ≠ [] →
      (f ∈ selectFunctions norm fsSource fsOutput functions changedFiles ↔
        f ∈ functions ∧ functionAffected norm changedFiles (codeUriOf f) = true ∧
          isArtifactStale (fsSource (codeUriOf f)) (fsOutput f.Name) = true)) := by
  refine ⟨?_, ?_, ?_⟩
  · intro h
    subst h
    rfl
  · unfold functionAffected
    rw [List.any_eq_true]
    constructor
    · rintro ⟨p, hp, hor⟩
      rcases Bool.or_eq_true_iff.mp hor with h | h
      · exact ⟨p, hp, (strStartsWith_iff _ _).mp h⟩
      · exact ⟨p, hp, (strStartsWith_iff _ _).mp (strStartsWith_joinSlash h)⟩
    · rintro ⟨p, hp, t, ht⟩
      refine ⟨p, hp, ?_⟩
      have h1 : strStartsWith (norm p) (norm (codeUriOf f)) = true :=
        (strStartsWith_iff _ _).mpr ⟨t, ht⟩
      simp [h1]
  · intro hne
    have hlen : changedFiles.length > 0 := List.length_pos.mpr hne
    simp only [selectFunctions, if_pos hlen, determineFunctionsToRebuild]
    rw [List.mem_filter]
    simp [functionNeedsRebuild, Bool.and_eq_true]

/-- Witness for the C6 theorem at a concrete non-empty change batch. -/
theorem c6_affected_and_stale_selection_witness :
    funcA ∈ selectFunctions id fsSourceEmpty fsOutputMissing [funcA] ["a/x.ts"] ↔
      funcA ∈ [funcA] ∧ functionAffected id ["a/x.ts"] (codeUriOf funcA) = true ∧
        isArtifactStale (fsSourceEmpty (codeUriOf funcA))
          (fsOutputMissing funcA.Name) = true :=
  (c6_affected_and_stale_selection id fsSourceEmpty fsOutputMissing [funcA]
    ["a/x.ts"] funcA).2.2 (by decide)

/-- Setting a key always leaves an entry for that key in the map. -/
theorem mapSet_mem_self (m : List (String × BuildResult)) (k : String)
    (v : BuildResult) : (k, v) ∈ mapSet m k v := by
  unfold mapSet
  split
  · next hany =>
      rw [List.any_eq_true] at hany
      obtain ⟨p, hp, hpk⟩ := hany
      rw [List.mem_map]
      exact ⟨p, hp, by simp [hpk]⟩
  · exact List.mem_append_right _ (List.mem_singleton.mpr rfl)

/-- Entries under other keys survive a `Map.set`. -/
theorem mapSet_mem_of_ne {m : List (String × BuildResult)} {k k' : String}
    {v r : BuildResult} (h : (k', r) ∈ m) (hne : k' ≠ k) :
    (k', r) ∈ mapSet m k v := by
  unfold mapSet
  split
  · rw [List.mem_map]
    refine ⟨(k', r), h, ?_⟩
    simp [hne]
  · exact List.mem_append_left _ h

/-- Every entry of `mapSet m k v` is an old entry or the new binding. -/
theorem mapSet_mem_elim {m : List (String × BuildResult)} {k k' : String}
    {v r : BuildResult} (h : (k', r) ∈ mapSet m k v) :
    (k', r) ∈ m ∨ (k' = k ∧ r = v) := by
  unfold mapSet at h
  split at h
  · rw [List.mem_map] at h
    obtain ⟨p, hp, hpe⟩ := h
    by_cases hpk : (p.1 == k) = true
    · right
      rw [if_pos hpk] at hpe
      rw [Prod.ext_iff] at hpe
      exact ⟨hpe.1.symm, hpe.2.symm⟩
    · left
      rw [if_neg hpk] at hpe
      rwa [hpe] at hp
  · rw [List.mem_append] at h
    rcases h with h | h
    · exact Or.inl h
    · right
      rw [List.mem_singleton, Prod.ext_iff] at h
      exact ⟨h.1, h.2⟩

/-- A member of a list either sits at the erased index or survives
`eraseIdx`. -/
theorem mem_eraseIdx_or {α : Type} : ∀ (l : List α) (i : Nat)
    (hi : i < l.length) (a : α), a ∈ l → a = l[i] ∨ a ∈ l.eraseIdx i := by
  intro l
  induction l with
  | nil =>
      intro i hi
      simp at hi
  | cons x xs ih =>
      intro i hi a ha
      cases i with
      | zero =>
          rcases List.mem_cons.mp ha with h | h
          · left
            simpa using h
          · right
            simpa [List.eraseIdx] using h
      | succ n =>
          rcases List.mem_cons.mp ha with rfl | h
          · right
            simp [List.eraseIdx]
          · have hn : n < xs.length := by simpa using hi
            rcases ih n hn a h with h1 | h1
            · left
              simpa using h1
            · right
              simp [List.eraseIdx]
              exact Or.inr h1

/-- Admission only moves the queue head into `active`. -/
theorem admitNext_fields (s : SchedState) :
    (admitNext s).active =
        (match s.buildQueue with
          | [] => s.active
          | g :: _ => s.active ++ [g]) ∧
      (admitNext s).buildQueue = s.buildQueue.drop 1 ∧
      (admitNext s).buildResults = s.buildResults ∧
      (admitNext s).completedFunctions = s.completedFunctions ∧
      (admitNext s).totalFunctions = s.totalFunctions ∧
      (admitNext s).summaryEvents = s.summaryEvents := by
  unfold admitNext
  cases hq : s.buildQueue <;> simp [hq]

/-- The summary check only touches the emission counter. -/
theorem finishSummary_fields (s : SchedState) :
    (finishSummary s).active = s.active ∧
      (finishSummary s).buildQueue = s.buildQueue ∧
      (finishSummary s).buildResults = s.buildResults ∧
      (finishSummary s).completedFunctions = s.completedFunctions ∧
      (finishSummary s).totalFunctions = s.totalFunctions ∧
      (finishSummary s).summaryEvents =
        (if s.completedFunctions = s.totalFunctions then s.summaryEvents + 1
         else s.summaryEvents) := by
  unfold finishSummary
  split <;> simp_all

/-- Field characterization of a completion step with a valid index:
the admitted list after the step. -/
theorem completeStep_active_eq (dispatch : FunctionConfig → Except String Unit)
    (s : SchedState) (i : Nat) (f : FunctionConfig) (hget : s.active[i]? = some f) :
    (completeStep dispatch s i).active =
      (match s.buildQueue with
        | [] => s.active.eraseIdx i
        | g :: _ => s.active.eraseIdx i ++ [g]) := by
  unfold completeStep
  rw [hget]
  rw [(finishSummary_fields _).1, (admitNext_fields _).1]

/-- Field characterization: the queue loses its head. -/
theorem completeStep_buildQueue_eq (dispatch : FunctionConfig → Except String Unit)
    (s : SchedState) (i : Nat) (f : FunctionConfig) (hget : s.active[i]? = some f) :
    (completeStep dispatch s i).buildQueue = s.buildQueue.drop 1 := by
  unfold completeStep
  rw [hget]
  rw [(finishSummary_fields _).2.1, (admitNext_fields _).2.1]

/-- Field characterization: the completed build's result is recorded. -/
theorem completeStep_buildResults_eq (dispatch : FunctionConfig → Except String Unit)
    (s : SchedState) (i : Nat) (f : FunctionConfig) (hget : s.active[i]? = some f) :
    (completeStep dispatch s i).buildResults =
      mapSet s.buildResults f.Name (mkBuildResult dispatch f) := by
  unfold completeStep
  rw [hget]
  rw [(finishSummary_fields _).2.2.1, (admitNext_fields _).2.2.1]

/-- Field characterization: the completed count increments. -/
theorem completeStep_completed_eq (dispatch : FunctionConfig → Except String Unit)
    (s : SchedState) (i : Nat) (f : FunctionConfig) (hget : s.active[i]? = some f) :
    (completeStep dispatch s i).completedFunctions = s.completedFunctions + 1 := by
  unfold completeStep
  rw [hget]
  rw [(finishSummary_fields _).2.2.2.1, (admitNext_fields _).2.2.2.1]

/-- Field characterization: the total is untouched. -/
theorem completeStep_total_eq (dispatch : FunctionConfig → Except String Unit)
    (s : SchedState) (i : Nat) (f : FunctionConfig) (hget : s.active[i]? = some f) :
    (completeStep dispatch s i).totalFunctions = s.totalFunctions := by
  unfold completeStep
  rw [hget]
  rw [(finishSummary_fields _).2.2.2.2.1, (admitNext_fields _).2.2.2.2.1]

/-- Field characterization: the batch summary fires exactly when the
incremented completed count reaches the total. -/
theorem completeStep_summary_eq (dispatch : FunctionConfig → Except String Unit)
    (s : SchedState) (i : Nat) (f : FunctionConfig) (hget : s.active[i]? = some f) :
    (completeStep dispatch s i).summaryEvents =
      (if s.completedFunctions + 1 = s.totalFunctions then s.summaryEvents + 1
       else s.summaryEvents) := by
  unfold completeStep
  rw [hget]
  rw [(finishSummary_fields _).2.2.2.2.2]
  rw [(admitNext_fields _).2.2.2.1, (admitNext_fields _).2.2.2.2.1,
    (admitNext_fields _).2.2.2.2.2]

/-- An in-range lookup that succeeds bounds the index. -/
theorem lt_of_getElem?_some {α : Type} {l : List α} {i : Nat} {a : α}
    (h : l[i]? = some a) : i < l.length := by
  by_contra hlt
  push_neg at hlt
  rw [List.getElem?_eq_none hlt] at h
  cases h

/-- A completion never increases the number of admitted builds. -/
theorem completeStep_active_le (dispatch : FunctionConfig → Except String Unit)
    (s : SchedState) (i : Nat) :
    (completeStep dispatch s i).active.length ≤ s.active.length := by
  cases hget : s.active[i]? with
  | none =>
      unfold completeStep
      rw [hget]
  | some f =>
      have hi : i < s.active.length := lt_of_getElem?_some hget
      have herase : (s.active.eraseIdx i).length = s.active.length - 1 := by
        rw [List.length_eraseIdx, if_pos hi]
      rw [completeStep_active_eq dispatch s i f hget]
      cases s.buildQueue with
      | nil =>
          simp only [herase]
          omega
      | cons g rest =>
          simp only [List.length_append, herase, List.length_singleton]
          omega

/-- The concurrency bound is preserved along any schedule. -/
theorem runSched_active_le (dispatch : FunctionConfig → Except String Unit) :
    ∀ (sched : List Nat) (s : SchedState),
      (runSched dispatch s sched).active.length ≤ s.active.length := by
  intro sched
  induction sched with
  | nil =>
      intro s
      exact Nat.le_refl _
  | cons i rest ih =>
      intro s
      exact Nat.le_trans (ih (completeStep dispatch s i)) (completeStep_active_le dispatch s i)

/-- C2: along every completion schedule the number of simultaneously
admitted builds never exceeds the cap `P` handed to the scheduler, and the
cap computed by the constructor is `max(1, ⌊cpuCount / 2⌋)` with parallel
builds enabled and `1` otherwise.  Quantifying over all schedules covers
every instant of a run, since each instant is the final state of a
prefix. -/
theorem c2_bounded_concurrency (dispatch : FunctionConfig → Except String Unit)
    (P : Nat) (fns : List FunctionConfig) (sched : List Nat) (cpuCount : Nat) :
    (runSched dispatch (initState P fns) sched).active.length ≤ P ∧
    maxParallelBuilds true cpuCount = Nat.max 1 (cpuCount / 2) ∧
    maxParallelBuilds false cpuCount = 1 := by
  refine ⟨?_, rfl, rfl⟩
  have hinit : (initState P fns).active.length ≤ P := by
    have h0 : (initState P fns).active = fns.take (Nat.min P fns.length) := rfl
    rw [h0, List.length_take]
    exact Nat.le_trans (Nat.min_le_left _ _) (Nat.min_le_left _ _)
  exact Nat.le_trans (runSched_active_le dispatch sched (initState P fns)) hinit

/-- Running a concatenated schedule runs the pieces in sequence. -/
theorem runSched_append (dispatch : FunctionConfig → Except String Unit) :
    ∀ (a b : List Nat) (s : SchedState),
      runSched dispatch s (a ++ b) = runSched dispatch (runSched dispatch s a) b := by
  intro a
  induction a with
  | nil => intro b s; rfl
  | cons i rest ih => intro b s; exact ih b (completeStep dispatch s i)

/-- A prefix of a valid schedule is valid. -/
theorem validRunB_append_left (dispatch : FunctionConfig → Except String Unit) :
    ∀ (a b : List Nat) (s : SchedState),
      validRunB dispatch s (a ++ b) = true → validRunB dispatch s a = true := by
  intro a
  induction a with
  | nil => intro b s _; rfl
  | cons i rest ih =>
      intro b s h
      rw [List.cons_append] at h
      unfold validRunB at h ⊢
      rw [Bool.and_eq_true] at h ⊢
      exact ⟨h.1, ih b (completeStep dispatch s i) h.2⟩

/-- A valid completion step preserves the counting invariant. -/
theorem completeStep_schedCounts (dispatch : FunctionConfig → Except String Unit)
    (s : SchedState) (i : Nat) (hi : i < s.active.length) (h : SchedCounts s) :
    SchedCounts (completeStep dispatch s i) := by
  obtain ⟨hc, hs⟩ := h
  have hget : s.active[i]? = some s.active[i] := List.getElem?_eq_getElem hi
  have herase : (s.active.eraseIdx i).length = s.active.length - 1 := by
    rw [List.length_eraseIdx, if_pos hi]
  have hactive := completeStep_active_eq dispatch s i _ hget
  have hqueue := completeStep_buildQueue_eq dispatch s i _ hget
  have hcompleted := completeStep_completed_eq dispatch s i _ hget
  have htotal := completeStep_total_eq dispatch s i _ hget
  have hsummary := completeStep_summary_eq dispatch s i _ hget
  have hlt : s.completedFunctions < s.totalFunctions := by omega
  have hlen : (completeStep dispatch s i).active.length
      + (completeStep dispatch s i).buildQueue.length + 1
      = s.active.length + s.buildQueue.length := by
    rw [hactive, hqueue]
    cases hq : s.buildQueue with
    | nil =>
        simp only [List.drop_nil, List.length_nil, herase]
        omega
    | cons g rest =>
        simp only [List.drop_succ_cons, List.drop_zero, List.length_append,
          List.length_cons, List.length_nil, herase]
        omega
  unfold SchedCounts
  refine ⟨by omega, ?_⟩
  rw [hsummary, hcompleted, htotal]
  rw [if_neg (Nat.ne_of_lt hlt)] at hs
  split <;> omega

/-- Along a valid schedule the counting invariant is maintained and the
completed count advances by exactly the number of steps. -/
theorem runSched_schedCounts (dispatch : FunctionConfig → Except String Unit) :
    ∀ (sched : List Nat) (s : SchedState),
      validRunB dispatch s sched = true → SchedCounts s →
      SchedCounts (runSched dispatch s sched) ∧
        (runSched dispatch s sched).completedFunctions
          = s.completedFunctions + sched.length ∧
        (runSched dispatch s sched).totalFunctions = s.totalFunctions := by
  intro sched
  induction sched with
  | nil =>
      intro s _ h
      exact ⟨h, rfl, rfl⟩
  | cons i rest ih =>
      intro s hv h
      unfold validRunB at hv
      rw [Bool.and_eq_true, decide_eq_true_eq] at hv
      obtain ⟨hi, hrest⟩ := hv
      have hget : s.active[i]? = some s.active[i] := List.getElem?_eq_getElem hi
      have step := completeStep_schedCounts dispatch s i hi h
      obtain ⟨h1, h2, h3⟩ := ih (completeStep dispatch s i) hrest step
      refine ⟨h1, ?_, ?_⟩
      · rw [runSched, h2, completeStep_completed_eq dispatch s i _ hget]
        simp [Nat.add_assoc, Nat.add_comm 1 rest.length]
      · rw [runSched, h3, completeStep_total_eq dispatch s i _ hget]

/-- Any completion step preserves coverage. -/
theorem completeStep_covers (dispatch : FunctionConfig → Except String Unit)
    (s : SchedState) (i : Nat) (fns : List FunctionConfig) (h : Covers fns s) :
    Covers fns (completeStep dispatch s i) := by
  cases hget : s.active[i]? with
  | none =>
      have heq : completeStep dispatch s i = s := by
        unfold completeStep
        rw [hget]
      rw [heq]
      exact h
  | some g =>
      have hi : i < s.active.length := lt_of_getElem?_some hget
      have hgel : s.active[i] = g := by
        have h2 := List.getElem?_eq_getElem hi
        rw [hget] at h2
        exact (Option.some_inj.mp h2).symm
      intro f hf
      rw [completeStep_buildResults_eq dispatch s i g hget,
        completeStep_active_eq dispatch s i g hget,
        completeStep_buildQueue_eq dispatch s i g hget]
      rcases h f hf with ⟨r, hr⟩ | hfa | hfq
      · by_cases hk : f.Name = g.Name
        · exact Or.inl ⟨mkBuildResult dispatch g, by rw [hk]; exact mapSet_mem_self _ _ _⟩
        · exact Or.inl ⟨r, mapSet_mem_of_ne hr hk⟩
      · rcases mem_eraseIdx_or s.active i hi f hfa with hfi | hfe
        · refine Or.inl ⟨mkBuildResult dispatch g, ?_⟩
          rw [hfi, hgel]
          exact mapSet_mem_self _ _ _
        · refine Or.inr (Or.inl ?_)
          cases hq : s.buildQueue with
          | nil => exact hfe
          | cons g' rest => exact List.mem_append_left _ hfe
      · cases hq : s.buildQueue with
        | nil =>
            rw [hq] at hfq
            exact absurd hfq (List.not_mem_nil f)
        | cons g' rest =>
            rw [hq] at hfq
            rcases List.mem_cons.mp hfq with rfl | hrest
            · exact Or.inr (Or.inl (List.mem_append_right _ (List.mem_singleton.mpr rfl)))
            · exact Or.inr (Or.inr (by simpa using hrest))

/-- Coverage is maintained along any schedule. -/
theorem runSched_covers (dispatch : FunctionConfig → Except String Unit) :
    ∀ (sched : List Nat) (s : SchedState) (fns : List FunctionConfig),
      Covers fns s → Covers fns (runSched dispatch s sched) := by
  intro sched
  induction sched with
  | nil => intro s fns h; exact h
  | cons i rest ih =>
      intro s fns h
      exact ih (completeStep dispatch s i) fns (completeStep_covers dispatch s i fns h)

/-- The initial state covers the whole batch. -/
theorem initState_covers (P : Nat) (fns : List FunctionConfig) :
    Covers fns (initState P fns) := by
  intro f hf
  right
  have hsplit := List.take_append_drop (Nat.min P fns.length) fns
  rw [← hsplit] at hf
  rcases List.mem_append.mp hf with h | h
  · exact Or.inl h
  · exact Or.inr h

/-- Any completion step preserves provenance. -/
theorem completeStep_resultsFrom (dispatch : FunctionConfig → Except String Unit)
    (s : SchedState) (i : Nat) (fns : List FunctionConfig)
    (h : ResultsFrom dispatch fns s) :
    ResultsFrom dispatch fns (completeStep dispatch s i) := by
  cases hget : s.active[i]? with
  | none =>
      have heq : completeStep dispatch s i = s := by
        unfold completeStep
        rw [hget]
      rw [heq]
      exact h
  | some g =>
      have hi : i < s.active.length := lt_of_getElem?_some hget
      have hgel : s.active[i] = g := by
        have h2 := List.getElem?_eq_getElem hi
        rw [hget] at h2
        exact (Option.some_inj.mp h2).symm
      obtain ⟨hres, hact, hque⟩ := h
      have hgmem : g ∈ fns := hact g (hgel ▸ List.getElem_mem hi)
      refine ⟨?_, ?_, ?_⟩
      · intro k r hkr
        rw [completeStep_buildResults_eq dispatch s i g hget] at hkr
        rcases mapSet_mem_elim hkr with hold | ⟨hk, hv⟩
        · exact hres k r hold
        · exact ⟨g, hgmem, hk.symm, hv⟩
      · intro f hfa
        rw [completeStep_active_eq dispatch s i g hget] at hfa
        cases hq : s.buildQueue with
        | nil =>
            rw [hq] at hfa
            exact hact f (List.eraseIdx_subset _ _ hfa)
        | cons g' rest =>
            rw [hq] at hfa
            rcases List.mem_append.mp hfa with hfe | hfg
            · exact hact f (List.eraseIdx_subset _ _ hfe)
            · rw [List.mem_singleton.mp hfg]
              exact hque g' (hq ▸ List.mem_cons_self g' rest)
      · intro f hfq
        rw [completeStep_buildQueue_eq dispatch s i g hget] at hfq
        exact hque f (List.drop_subset _ _ hfq)

/-- Provenance is maintained along any schedule. -/
theorem runSched_resultsFrom (dispatch : FunctionConfig → Except String Unit) :
    ∀ (sched : List Nat) (s : SchedState) (fns : List FunctionConfig),
      ResultsFrom dispatch fns s → ResultsFrom dispatch fns (runSched dispatch s sched) := by
  intro sched
  induction sched with
  | nil => intro s fns h; exact h
  | cons i rest ih =>
      intro s fns h
      exact ih (completeStep dispatch s i) fns (completeStep_resultsFrom dispatch s i fns h)

/-- The initial state has sound provenance. -/
theorem initState_resultsFrom (dispatch : FunctionConfig → Except String Unit)
    (P : Nat) (fns : List FunctionConfig) :
    ResultsFrom dispatch fns (initState P fns) := by
  refine ⟨?_, ?_, ?_⟩
  · intro k r hkr
    exact absurd hkr (List.not_mem_nil _)
  · intro f hf
    exact List.take_subset _ _ hf
  · intro f hf
    exact List.drop_subset _ _ hf

/-- The initial state of a non-empty batch satisfies the counting
invariant. -/
theorem initState_schedCounts (P : Nat) (fns : List FunctionConfig)
    (hfns : fns ≠ []) : SchedCounts (initState P fns) := by
  have hlen : 0 < fns.length := List.length_pos.mpr hfns
  have hmin : Nat.min P fns.length ≤ fns.length := Nat.min_le_right _ _
  constructor
  · show 0 + (fns.take (Nat.min P fns.length)).length
        + (fns.drop (Nat.min P fns.length)).length = fns.length
    rw [List.length_take, List.length_drop]
    omega
  · show (0 : Nat) = if 0 = fns.length then 1 else 0
    rw [if_neg (by omega)]

/-- C4: for a non-empty admitted batch and a valid completion schedule
with one step per target, every target ends with a recorded result in the
returned map, the batch summary has been emitted exactly once, and no
strict prefix of the run has emitted it — so the emission happens exactly
at the last terminal transition. -/
theorem c4_work_conservation (dispatch : FunctionConfig → Except String Unit)
    (P : Nat) (fns : List FunctionConfig) (sched : List Nat)
    (hfns : fns ≠ [])
    (hvalid : validRunB dispatch (initState P fns) sched = true)
    (hlen : sched.length = fns.length) :
    (∀ f, f ∈ fns →
      ∃ r, (f.Name, r) ∈ (runSched dispatch (initState P fns) sched).buildResults) ∧
    (runSched dispatch (initState P fns) sched).summaryEvents = 1 ∧
    (∀ pre suf, pre ++ suf = sched → suf ≠ [] →
      (runSched dispatch (initState P fns) pre).summaryEvents = 0) := by
  have hinit := initState_schedCounts P fns hfns
  obtain ⟨hcounts, hcompleted, htotal⟩ :=
    runSched_schedCounts dispatch sched (initState P fns) hvalid hinit
  have hc0 : (initState P fns).completedFunctions = 0 := rfl
  have ht0 : (initState P fns).totalFunctions = fns.length := rfl
  rw [hc0] at hcompleted
  rw [ht0] at htotal
  have hfin : (runSched dispatch (initState P fns) sched).completedFunctions
      = fns.length := by omega
  refine ⟨?_, ?_, ?_⟩
  · have hcov := runSched_covers dispatch sched (initState P fns) fns (initState_covers P fns)
    intro f hf
    have hsum := hcounts.1
    rcases hcov f hf with h | h | h
    · exact h
    · exfalso
      have ha : (runSched dispatch (initState P fns) sched).active.length = 0 := by omega
      rw [List.length_eq_zero] at ha
      rw [ha] at h
      exact List.not_mem_nil f h
    · exfalso
      have hq : (runSched dispatch (initState P fns) sched).buildQueue.length = 0 := by omega
      rw [List.length_eq_zero] at hq
      rw [hq] at h
      exact List.not_mem_nil f h
  · have hsum := hcounts.2
    rw [hfin, htotal] at hsum
    rw [hsum, if_pos rfl]
  · intro pre suf hps hsuf
    have hvpre : validRunB dispatch (initState P fns) pre = true :=
      validRunB_append_left dispatch pre suf _ (by rw [hps]; exact hvalid)
    obtain ⟨hcpre, hcomp, htot⟩ :=
      runSched_schedCounts dispatch pre (initState P fns) hvpre hinit
    have hpre_len : pre.length < fns.length := by
      have h1 : pre.length + suf.length = sched.length := by
        rw [← hps, List.length_append]
      have h2 : 0 < suf.length := List.length_pos.mpr hsuf
      omega
    have hsum := hcpre.2
    rw [hcomp, hc0, htot, ht0] at hsum
    rw [hsum, if_neg (by omega)]

/-- Witness for C4 with two targets under cap 1 and the in-order
schedule. -/
theorem c4_work_conservation_witness :
    (∀ f, f ∈ [funcA, funcB] →
      ∃ r, (f.Name, r) ∈ (runSched dispatchOk (initState 1 [funcA, funcB]) [0, 0]).buildResults) ∧
    (runSched dispatchOk (initState 1 [funcA, funcB]) [0, 0]).summaryEvents = 1 ∧
    (∀ pre suf, pre ++ suf = [0, 0] → suf ≠ [] →
      (runSched dispatchOk (initState 1 [funcA, funcB]) pre).summaryEvents = 0) :=
  c4_work_conservation dispatchOk 1 [funcA, funcB] [0, 0] (by decide) (by decide) rfl

/-- C5: (general) every recorded result is fully determined by its own
target and that target's dispatch outcome, so one target's failure cannot
alter another's result; (concrete) in the three-target batch where only
`funcB`'s dispatch fails, the other two targets still succeed, `funcB`'s
result carries the human-readable message, and the batch summary reports
2 successes and 1 failure, emitted once. -/
theorem c5_failure_isolation :
    (∀ (dispatch : FunctionConfig → Except String Unit) (P : Nat)
        (fns : List FunctionConfig) (sched : List Nat) (k : String) (r : BuildResult),
      (k, r) ∈ (runSched dispatch (initState P fns) sched).buildResults →
      ∃ f, f ∈ fns ∧ f.Name = k ∧ r = mkBuildResult dispatch f) ∧
    ((mapGet scenarioFinal.buildResults "FuncA").map (fun r => r.success) = some true ∧
      mapGet scenarioFinal.buildResults "FuncB"
        = some { functionName := "FuncB", success := false,
                 errors := ["Unsupported build method: custom-build"], warnings := [] } ∧
      (mapGet scenarioFinal.buildResults "FuncC").map (fun r => r.success) = some true ∧
      (displayBuildSummary scenarioFinal).successCount = 2 ∧
      (displayBuildSummary scenarioFinal).failureCount = 1 ∧
      scenarioFinal.summaryEvents = 1) := by
  constructor
  · intro dispatch P fns sched k r hmem
    exact (runSched_resultsFrom dispatch sched (initState P fns) fns
      (initState_resultsFrom dispatch P fns)).1 k r hmem
  · exact ⟨rfl, rfl, rfl, rfl, rfl, rfl⟩

/-- Witness for C5's general part at the failing target of the concrete
scenario. -/
theorem c5_failure_isolation_witness :
    ∃ f, f ∈ scenarioFns ∧ f.Name = "FuncB" ∧
      ({ functionName := "FuncB", success := false,
         errors := ["Unsupported build method: custom-build"],
         warnings := [] } : BuildResult) = mkBuildResult dispatchOk f :=
  c5_failure_isolation.1 dispatchOk 2 scenarioFns [0, 0, 0] "FuncB"
    { functionName := "FuncB", success := false,
      errors := ["Unsupported build method: custom-build"], warnings := [] }
    (by decide)

/-- C8: a null or empty target list makes `buildFunctions` fail
immediately with the `No functions provided for building` error, while a
non-empty list whose staleness filtering selects nothing returns an empty
result map without error. -/
theorem c8_invalid_input (norm : String → String) (fsSource : String → FsTree)
    (fsOutput : String → Option FsTree)
    (dispatch : FunctionConfig → Except String Unit) (P : Nat)
    (changedFiles : List String) (sched : List Nat) :
    buildFunctions norm fsSource fsOutput dispatch P none changedFiles sched
      = Except.error "No functions provided for building" ∧
    buildFunctions norm fsSource fsOutput dispatch P (some []) changedFiles sched
      = Except.error "No functions provided for building" ∧
    (∀ fns, fns ≠ [] →
      selectFunctions norm fsSource fsOutput fns changedFiles = [] →
      buildFunctions norm fsSource fsOutput dispatch P (some fns) changedFiles sched
        = Except.ok []) := by
  refine ⟨rfl, rfl, ?_⟩
  intro fns hne hsel
  have h1 : fns.length ≠ 0 := by
    rwa [Ne, List.length_eq_zero]
  simp [buildFunctions, h1, hsel]

/-- Witness for C8's no-selection branch: one target, a changed path
outside its source root. -/
theorem c8_invalid_input_witness :
    buildFunctions id fsSourceEmpty fsOutputMissing dispatchOk 1 (some [funcA])
      ["zzz"] [] = Except.ok [] :=
  (c8_invalid_input id fsSourceEmpty fsOutputMissing dispatchOk 1 ["zzz"] []).2.2
    [funcA] (by decide) (by decide)

/-- A key absent from the results map has no matching entry. -/
theorem mapGet_none_any_false {m : List (String × BuildResult)} {k : String}
    (h : mapGet m k = none) : (m.any fun p => p.1 == k) = false := by
  unfold mapGet at h
  rw [Option.map_eq_none'] at h
  rw [List.find?_eq_none] at h
  rw [List.any_eq_false]
  intro p hp
  exact h p hp

/-- C9, counterexample: with two targets submitted as `[funcA, funcB]`
under cap 2 and `funcB` completing first, the per-target summary list is
ordered `[FuncB, FuncA]` — completion order, not the submission order
`[FuncA, FuncB]`. -/
theorem c9_summary_not_submission_order :
    ((displayBuildSummary (runSched dispatchOk (initState 2 [funcA, funcB]) [1, 0])).perFunction.map
        fun r => r.functionName) = ["FuncB", "FuncA"] ∧
    ([funcA, funcB].map fun f => f.Name) = ["FuncA", "FuncB"] ∧
    (["FuncB", "FuncA"] : List String) ≠ ["FuncA", "FuncB"] := by
  refine ⟨rfl, rfl, by decide⟩

/-- C9, amended: the per-target summary list is exactly the recorded
results in the order they were inserted into the results map — completion
order — and producing the summary reads the results without modifying
them; each completion of a not-yet-recorded target appends its result at
the tail of that order. -/
theorem c9_completion_order (dispatch : FunctionConfig → Except String Unit)
    (s : SchedState) (i : Nat) (f : FunctionConfig) :
    ((displayBuildSummary s).perFunction = s.buildResults.map fun p => p.2) ∧
    ((displayBuildSummary s).successCount
      = ((s.buildResults.map fun p => p.2).filter fun r => r.success).length) ∧
    (s.active[i]? = some f → mapGet s.buildResults f.Name = none →
      (completeStep dispatch s i).buildResults
        = s.buildResults ++ [(f.Name, mkBuildResult dispatch f)]) := by
  refine ⟨rfl, rfl, ?_⟩
  intro hget hnone
  rw [completeStep_buildResults_eq dispatch s i f hget]
  unfold mapSet
  rw [if_neg (by rw [mapGet_none_any_false hnone]; exact Bool.false_ne_true)]

/-- Witness for the amended C9 theorem at a fresh results map. -/
theorem c9_completion_order_witness :
    (completeStep dispatchOk (initState 2 [funcA, funcB]) 0).buildResults
      = (initState 2 [funcA, funcB]).buildResults
        ++ [(funcA.Name, mkBuildResult dispatchOk funcA)] :=
  (c9_completion_order dispatchOk (initState 2 [funcA, funcB]) 0 funcA).2.2 rfl rfl

/-- Within the ceiling, `n` crashes drive the attempt counter to `n`,
leaving the configuration fields alone. -/
theorem iterateCrashes_attempts (M D : Nat) :
    ∀ n, n ≤ M →
      (iterateCrashes (freshWatcher M D) n).restartAttempts = n ∧
      (iterateCrashes (freshWatcher M D) n).maxRestartAttempts = M ∧
      (iterateCrashes (freshWatcher M D) n).restartBackoffDelay = D := by
  intro n
  induction n with
  | zero => intro _; exact ⟨rfl, rfl, rfl⟩
  | succ m ih =>
      intro h
      obtain ⟨ha, hm, hb⟩ := ih (by omega)
      unfold iterateCrashes attemptRestart
      rw [ha, hm, hb]
      rw [if_neg (by omega)]
      exact ⟨rfl, rfl, rfl⟩

/-- C3: in a failure streak under ceiling `M` with base delay `D`, the
`k`-th consecutive crash (1 ≤ k ≤ M) schedules a restart as attempt `k`
after delay `D * 2^(k-1)`; these delays are non-decreasing in `k`; the
`(M+1)`-th crash yields the terminal non-recoverable error, scheduling no
restart and leaving the state unchanged; and every successful watch start
resets the attempts counter to 0. -/
theorem c3_backoff_monotonicity (M D k : Nat) (h1 : 1 ≤ k) (h2 : k ≤ M) :
    ((attemptRestart (iterateCrashes (freshWatcher M D) (k - 1))).2
      = RestartAction.scheduled k (D * 2 ^ (k - 1))) ∧
    D * 2 ^ (k - 1) ≤ D * 2 ^ k ∧
    ((attemptRestart (iterateCrashes (freshWatcher M D) M)).2
      = RestartAction.failedPermanently
          ("Maximum restart attempts (" ++ toString M ++ ") exceeded")) ∧
    ((attemptRestart (iterateCrashes (freshWatcher M D) M)).1
      = iterateCrashes (freshWatcher M D) M) ∧
    (∀ w, (onNodemonStart w).restartAttempts = 0) := by
  obtain ⟨ha, hm, hb⟩ := iterateCrashes_attempts M D (k - 1) (by omega)
  obtain ⟨haM, hmM, _⟩ := iterateCrashes_attempts M D M (Nat.le_refl M)
  refine ⟨?_, ?_, ?_, ?_, ?_⟩
  · unfold attemptRestart
    rw [ha, hm, hb, if_neg (by omega)]
    have hk : k - 1 + 1 = k := by omega
    rw [hk]
  · exact Nat.mul_le_mul_left D (Nat.pow_le_pow_right (by omega) (by omega))
  · unfold attemptRestart
    rw [haM, hmM, if_pos (Nat.le_refl M)]
  · unfold attemptRestart
    rw [haM, hmM, if_pos (Nat.le_refl M)]
  · intro w
    rfl

/-- Witness for C3 at the second crash of a streak with ceiling 3 and
base delay 1000. -/
theorem c3_backoff_monotonicity_witness :
    (attemptRestart (iterateCrashes (freshWatcher 3 1000) (2 - 1))).2
      = RestartAction.scheduled 2 (1000 * 2 ^ (2 - 1)) :=
  (c3_backoff_monotonicity 3 1000 2 (by decide) (by decide)).1

/-- Output of the timer callback as a function of the pending set. -/
theorem fireTimer_out (w : WatcherState) :
    (fireTimer w).2
      = if w.pendingChanges.length > 0 then [w.pendingChanges] else [] := by
  unfold fireTimer
  split <;> rfl

/-- Membership in an insertion fold. -/
theorem mem_foldl_setInsert (p : String) :
    ∀ (l : List String) (acc : List String),
      p ∈ l.foldl setInsert acc ↔ p ∈ acc ∨ p ∈ l := by
  intro l
  induction l with
  | nil => intro acc; simp
  | cons x xs ih =>
      intro acc
      rw [List.foldl_cons, ih]
      unfold setInsert
      by_cases hx : x ∈ acc
      · rw [if_pos hx]
        constructor
        · rintro (h | h)
          · exact Or.inl h
          · exact Or.inr (List.mem_cons_of_mem x h)
        · rintro (h | h)
          · exact Or.inl h
          · rcases List.mem_cons.mp h with rfl | h2
            · exact Or.inl hx
            · exact Or.inr h2
      · rw [if_neg hx]
        constructor
        · rintro (h | h)
          · rcases List.mem_append.mp h with h2 | h2
            · exact Or.inl h2
            · exact Or.inr (List.mem_cons.mpr (Or.inl (List.mem_singleton.mp h2)))
          · exact Or.inr (List.mem_cons_of_mem x h)
        · rintro (h | h)
          · exact Or.inl (List.mem_append_left _ h)
          · rcases List.mem_cons.mp h with rfl | h2
            · exact Or.inl (List.mem_append_right _ (List.mem_singleton.mpr rfl))
            · exact Or.inr h2

/-- Insertion folds keep the pending set duplicate-free. -/
theorem nodup_foldl_setInsert :
    ∀ (l : List String) (acc : List String),
      acc.Nodup → (l.foldl setInsert acc).Nodup := by
  intro l
  induction l with
  | nil => intro acc h; exact h
  | cons x xs ih =>
      intro acc h
      rw [List.foldl_cons]
      apply ih
      unfold setInsert
      by_cases hx : x ∈ acc
      · rwa [if_pos hx]
      · rw [if_neg hx]
        rw [List.nodup_append]
        refine ⟨h, List.nodup_singleton x, ?_⟩
        intro a ha hax
        rw [List.mem_singleton.mp hax] at ha
        exact hx ha

/-- While notifications keep arriving within the debounce window, the
timer never fires: the run just accumulates paths and finally flushes
once. -/
theorem runWatcher_tight (delay : Nat) :
    ∀ (ns : List (Nat × List String)) (prev : Nat) (acc : List String),
      tightFrom delay prev ns = true →
      (runWatcher delay ⟨acc, some (prev + delay)⟩ ns).2
        = (let pending := ((ns.map fun n => n.2).flatten).foldl setInsert acc
           if pending.length > 0 then [pending] else []) := by
  intro ns
  induction ns with
  | nil =>
      intro prev acc _
      show (fireTimer ⟨acc, some (prev + delay)⟩).2 = _
      rw [fireTimer_out]
      simp only [List.map_nil, List.flatten_nil, List.foldl_nil]
  | cons n rest ih =>
      intro prev acc htight
      obtain ⟨t, files⟩ := n
      unfold tightFrom at htight
      rw [Bool.and_eq_true, Bool.and_eq_true, decide_eq_true_eq, decide_eq_true_eq] at htight
      obtain ⟨⟨hle, hlt⟩, hrest⟩ := htight
      show (if prev + delay ≤ t then _ else
        runWatcher delay
          (handleFileChanges delay t files ⟨acc, some (prev + delay)⟩) rest).2 = _
      rw [if_neg (by omega)]
      have hstep : handleFileChanges delay t files ⟨acc, some (prev + delay)⟩
          = ⟨files.foldl setInsert acc, some (t + delay)⟩ := rfl
      rw [hstep, ih t (files.foldl setInsert acc) hrest]
      simp only [List.map_cons, List.flatten_cons, List.foldl_append]

/-- C7: for a non-empty sequence of notifications each arriving within the
debounce window of its predecessor, starting with no pending changes and
no armed timer, exactly one batch is emitted when the timer finally
fires; it is duplicate-free and contains exactly the union of all
notified paths. -/
theorem c7_debounce_collapse (delay t0 : Nat) (files0 : List String)
    (rest : List (Nat × List String))
    (htight : tightFrom delay t0 rest = true)
    (hne : dedupUnion ((t0, files0) :: rest) ≠ []) :
    (runWatcher delay ⟨[], none⟩ ((t0, files0) :: rest)).2
      = [dedupUnion ((t0, files0) :: rest)] ∧
    (dedupUnion ((t0, files0) :: rest)).Nodup ∧
    (∀ p, p ∈ dedupUnion ((t0, files0) :: rest) ↔
      ∃ n, n ∈ (t0, files0) :: rest ∧ p ∈ n.2) := by
  have hpend : ((rest.map fun n => n.2).flatten).foldl setInsert (files0.foldl setInsert [])
      = dedupUnion ((t0, files0) :: rest) := by
    unfold dedupUnion
    rw [List.map_cons, List.flatten_cons, List.foldl_append]
  refine ⟨?_, ?_, ?_⟩
  · show (runWatcher delay (handleFileChanges delay t0 files0 ⟨[], none⟩) rest).2 = _
    have hstep : handleFileChanges delay t0 files0 ⟨[], none⟩
        = ⟨files0.foldl setInsert [], some (t0 + delay)⟩ := rfl
    rw [hstep, runWatcher_tight delay rest t0 (files0.foldl setInsert []) htight]
    simp only [hpend]
    rw [if_pos (List.length_pos.mpr hne)]
  · unfold dedupUnion
    exact nodup_foldl_setInsert _ _ (List.nodup_nil)
  · intro p
    unfold dedupUnion
    rw [mem_foldl_setInsert]
    simp only [List.not_mem_nil, false_or]
    rw [List.mem_flatten]
    constructor
    · rintro ⟨s, hs, hp⟩
      rw [List.mem_map] at hs
      obtain ⟨n, hn, rfl⟩ := hs
      exact ⟨n, hn, hp⟩
    · rintro ⟨n, hn, hp⟩
      exact ⟨n.2, List.mem_map.mpr ⟨n, hn, rfl⟩, hp⟩

/-- Witness for C7: two bursts 100 time-units apart under a 300-unit
debounce collapse into the single batch `[a, b, c]`. -/
theorem c7_debounce_collapse_witness :
    (runWatcher 300 ⟨[], none⟩ [(0, ["a", "b"]), (100, ["b", "c"])]).2
      = [dedupUnion [(0, ["a", "b"]), (100, ["b", "c"])]] :=
  (c7_debounce_collapse 300 0 ["a", "b"] [(100, ["b", "c"])] (by decide) (by decide)).1

/-- In the replace branch of `objSet`, lookup of the updated key yields
the new value. -/
theorem objGet_map_self (k : String) (v : JsValue) :
    ∀ m : Obj, (m.any fun p => p.1 == k) = true →
      objGet (m.map fun p => if p.1 == k then (k, v) else p) k = some v := by
  intro m
  induction m with
  | nil => intro h; simp at h
  | cons p rest ih =>
      intro h
      rw [List.map_cons]
      by_cases hpk : (p.1 == k) = true
      · rw [if_pos hpk]
        simp only [objGet]
        rw [if_pos (by simp)]
      · rw [if_neg hpk]
        simp only [objGet]
        rw [if_neg hpk]
        apply ih
        rw [List.any_cons] at h
        rcases Bool.or_eq_true_iff.mp h with h1 | h1
        · exact absurd h1 hpk
        · exact h1

/-- In the append branch of `objSet`, lookup of the new key yields the
new value. -/
theorem objGet_append_self (k : String) (v : JsValue) :
    ∀ m : Obj, (m.any fun p => p.1 == k) = false →
      objGet (m ++ [(k, v)]) k = some v := by
  intro m
  induction m with
  | nil =>
      intro _
      simp only [List.nil_append, objGet]
      rw [if_pos (by simp)]
  | cons p rest ih =>
      intro h
      rw [List.any_cons, Bool.or_eq_false_iff] at h
      rw [List.cons_append]
      simp only [objGet]
      rw [if_neg (by rw [h.1]; exact Bool.false_ne_true)]
      exact ih h.2

/-- The replace branch of `objSet` does not touch other keys. -/
theorem objGet_map_ne (k k' : String) (v : JsValue) (hne : k' ≠ k) :
    ∀ m : Obj,
      objGet (m.map fun p => if p.1 == k then (k, v) else p) k' = objGet m k' := by
  intro m
  induction m with
  | nil => rfl
  | cons p rest ih =>
      rw [List.map_cons]
      by_cases hpk : (p.1 == k) = true
      · rw [if_pos hpk]
        have hp1 : p.1 = k := by simpa using hpk
        simp only [objGet]
        have h1 : ¬((k, v).1 == k') = true := by
          simp only [beq_iff_eq]
          exact fun h => hne h.symm
        have h2 : ¬(p.1 == k') = true := by
          simp only [beq_iff_eq, hp1]
          exact fun h => hne h.symm
        rw [if_neg h1, if_neg h2]
        exact ih
      · rw [if_neg hpk]
        simp only [objGet]
        by_cases hpk' : (p.1 == k') = true
        · rw [if_pos hpk', if_pos hpk']
        · rw [if_neg hpk', if_neg hpk']
          exact ih

/-- The append branch of `objSet` does not touch other keys. -/
theorem objGet_append_ne (k k' : String) (v : JsValue) (hne : k' ≠ k) :
    ∀ m : Obj, objGet (m ++ [(k, v)]) k' = objGet m k' := by
  intro m
  induction m with
  | nil =>
      simp only [List.nil_append, objGet]
      rw [if_neg (by simp only [beq_iff_eq]; exact fun h => hne h.symm)]
  | cons p rest ih =>
      rw [List.cons_append]
      simp only [objGet]
      by_cases hpk' : (p.1 == k') = true
      · rw [if_pos hpk', if_pos hpk']
      · rw [if_neg hpk', if_neg hpk']
        exact ih

/-- Updating an existing or new key stores the value under that key. -/
theorem objGet_objSet_self (c : Obj) (k : String) (v : JsValue) :
    objGet (objSet c k v) k = some v := by
  unfold objSet
  by_cases hany : (c.any fun p => p.1 == k) = true
  · rw [if_pos hany]
    exact objGet_map_self k v c hany
  · rw [if_neg hany]
    exact objGet_append_self k v c (Bool.not_eq_true _ ▸ hany)

/-- Updating one key leaves every other key's value untouched. -/
theorem objGet_objSet_ne (c : Obj) (k k' : String) (v : JsValue)
    (hne : k' ≠ k) : objGet (objSet c k v) k' = objGet c k' := by
  unfold objSet
  by_cases hany : (c.any fun p => p.1 == k) = true
  · rw [if_pos hany]
    exact objGet_map_ne k k' v hne c
  · rw [if_neg hany]
    exact objGet_append_ne k k' v hne c

/-- C10: `updateConfig` is atomic — a value that fails validation leaves
the stored configuration exactly as before and surfaces the error, while
a valid value changes exactly the named key; `loadConfig` is total (it
never throws), and whenever its outcome is not `loaded` — missing file,
read error, parse failure, unsupported extension, or failed validation of
the merged result — the stored configuration is exactly the one held
before the call. -/
theorem c10_config_atomicity :
    (∀ (c : Obj) (k : String) (v : JsValue) (e : String),
      validateConfig (objSet c k v) = Except.error e →
      updateConfig c k v = (c, some e)) ∧
    (∀ (c : Obj) (k : String) (v : JsValue),
      validateConfig (objSet c k v) = Except.ok () →
      updateConfig c k v = (objSet c k v, none)) ∧
    (∀ (c : Obj) (k : String) (v : JsValue), objGet (objSet c k v) k = some v) ∧
    (∀ (c : Obj) (k k' : String) (v : JsValue), k' ≠ k →
      objGet (objSet c k v) k' = objGet c k') ∧
    (∀ (file : FileRead) (pJ pY : String → Except String Obj)
        (path : String) (cur : Obj),
      (loadConfig file pJ pY path cur).2 ≠ LoadOutcome.loaded →
      (loadConfig file pJ pY path cur).1 = cur) := by
  refine ⟨?_, ?_, objGet_objSet_self, objGet_objSet_ne, ?_⟩
  · intro c k v e hval
    unfold updateConfig
    rw [hval]
  · intro c k v hval
    unfold updateConfig
    rw [hval]
  · intro file pJ pY path cur h
    cases file with
    | missing => rfl
    | readError msg => rfl
    | content text =>
        have hred : loadConfig (FileRead.content text) pJ pY path cur
            = (match parseByExt pJ pY path text with
              | Except.error e => (cur, LoadOutcome.failed e)
              | Except.ok loadedConfig =>
                  match validateConfig (objMerge cur loadedConfig) with
                  | Except.ok _ => (objMerge cur loadedConfig, LoadOutcome.loaded)
                  | Except.error e => (cur, LoadOutcome.failed e)) := rfl
        rw [hred] at h ⊢
        cases hp : parseByExt pJ pY path text with
        | error e => rfl
        | ok loadedConfig =>
            replace h : (match validateConfig (objMerge cur loadedConfig) with
                | Except.ok _ => (objMerge cur loadedConfig, LoadOutcome.loaded)
                | Except.error e => (cur, LoadOutcome.failed e)).2
                  ≠ LoadOutcome.loaded := by
              rw [hp] at h
              exact h
            show (match validateConfig (objMerge cur loadedConfig) with
                | Except.ok _ => (objMerge cur loadedConfig, LoadOutcome.loaded)
                | Except.error e => (cur, LoadOutcome.failed e)).1 = cur
            cases hv : validateConfig (objMerge cur loadedConfig) with
            | error e => rfl
            | ok u =>
                rw [hv] at h
                exact absurd rfl h

/-- Witness for C10: making `logLevel` numeric fails validation and the
default configuration is restored; a failing read likewise leaves it
untouched. -/
theorem c10_config_atomicity_witness :
    updateConfig defaultConfig "logLevel" (JsValue.num 5)
        = (defaultConfig, some "Invalid logLevel") ∧
    (loadConfig (FileRead.readError "EACCES")
        (fun _ => Except.ok []) (fun _ => Except.ok []) "conf.json" defaultConfig).1
      = defaultConfig :=
  ⟨c10_config_atomicity.1 defaultConfig "logLevel" (JsValue.num 5)
      "Invalid logLevel" rfl,
    c10_config_atomicity.2.2.2.2 (FileRead.readError "EACCES")
      (fun _ => Except.ok []) (fun _ => Except.ok []) "conf.json" defaultConfig
      (by decide)⟩

end HotReload
